import Mathlib

/-!
SLCAN gateway: hex codec, frame codec, outbound queue and gateway methods.

A shallow embedding of `src/puma_motor_driver/src/slcan_gateway.cpp`.

* C `char` values are natural numbers (their ASCII codes).
* A pointer into a character buffer is a pair of a memory (`Nat → Nat`, offset to
  character) and an offset; a write is `Function.update`.
* An out-parameter of integer type `IntT` is returned next to the `bool` result; the
  width of `IntT` in bits is a parameter and every store is reduced modulo `2 ^ bits`.
-/

namespace SLCAN

/-! ## Hex codec -/

/-- The characters of a string as ASCII codes. -/
def ascii (s : String) : List Nat := s.toList.map Char.toNat

/-- The table `hex_set` of `toHex`: the characters of `"0123456789ABCDEF"`. -/
def hex_set : List Nat := ascii "0123456789ABCDEF"

/-- The loop of `fromHex`: `len` iterations remain, `buffer` points at offset `pos`
of `mem` and `out` is the current value of `*out`.  Each iteration shifts `*out` left by
four bits and adds the value of the character, or returns `false` on a character
outside the three ranges, leaving `*out` shifted. -/
def fromHexLoop (bits : Nat) (mem : Nat → Nat) : Nat → Nat → Nat → Bool × Nat
  | 0, _, out => (true, out)
  | len + 1, pos, out =>
    let out := (out <<< 4) % 2 ^ bits
    let c := mem pos
    -- c >= '0' && c <= '9'
    if 48 ≤ c ∧ c ≤ 57 then
      fromHexLoop bits mem len (pos + 1) ((out + (c - 48)) % 2 ^ bits)
    -- c >= 'A' && c <= 'F'
    else if 65 ≤ c ∧ c ≤ 70 then
      fromHexLoop bits mem len (pos + 1) ((out + (10 + c - 65)) % 2 ^ bits)
    -- c >= 'a' && c <= 'f'
    else if 97 ≤ c ∧ c ≤ 102 then
      fromHexLoop bits mem len (pos + 1) ((out + (10 + c - 97)) % 2 ^ bits)
    else
      (false, out)

/-- The function `fromHex<IntT>(buffer, len, out)` with `buffer = mem + pos` and `IntT`
an unsigned type of `bits` bits.  The result is the returned `bool` and the final value
of `*out`; `*out` is cleared first, so its previous value is irrelevant.  The count is
the signed `int8_t len`: the loop runs while `len > 0`. -/
def fromHex (bits : Nat) (mem : Nat → Nat) (pos : Nat) (len : Int) : Bool × Nat :=
  fromHexLoop bits mem len.toNat pos 0

/-- The loop of `toHex`: `n` iterations remain, `out` is the current write pointer (an
offset into `mem`).  One iteration stores `hex_set[val & 0xf]` at `out`, decrements `out`
and shifts `val` right by four bits.  The pointer left by the last decrement is never
dereferenced. -/
def toHexLoop : Nat → Nat → (Nat → Nat) → Nat → (Nat → Nat)
  | 0, _, mem, _ => mem
  | n + 1, val, mem, out =>
    toHexLoop n (val >>> 4) (Function.update mem out (hex_set.getD (val &&& 0xf) 0)) (out - 1)

/-- The function `toHex<IntT>(val, out)` with `sizeof(IntT) = size` and `out = mem + pos`:
the pointer is first advanced by `size * 2 - 1`, then `size * 2` characters are written
backwards. -/
def toHex (size : Nat) (val : Nat) (mem : Nat → Nat) (pos : Nat) : Nat → Nat :=
  toHexLoop (size * 2) val mem (pos + (size * 2 - 1))

/-- The characters `mem[pos .. pos + n)` of a buffer. -/
def readChars (mem : Nat → Nat) (pos n : Nat) : List Nat := (List.range n).map fun i => mem (pos + i)

/-! ## Frame codec -/

/-- Modelled from the spec: the declaration of `SLCANMsg` (header `slcan_gateway.h`) is
not among the sources.  The wire format `<type><id:8hex><dlc:1hex><payload:2*dlc hex><CR>`
has fixed-width fields without separators, so the struct is a flat character buffer:
`type` at offset 0, `id[8]` at 1, `len[1]` at 9, `data[16]` at 10 and `delim` at 26.
Offsets from 27 on are the memory behind the struct. -/
abbrev SLCANMsg := Nat → Nat

/-- Offset of the field `type`. -/
def type_off : Nat := 0
/-- Offset of the field `id`. -/
def id_off : Nat := 1
/-- Offset of the field `len`. -/
def len_off : Nat := 9
/-- Offset of the field `data`; `data[16]` is the field `delim`. -/
def data_off : Nat := 10

/-- Modelled from the spec: the template parameter `CANMsgT` is not among the sources; the
codec uses the five fields below (the STM32 CAN message named in the source comment):
`IDE`, `RTR` and `DLC` are `uint8_t`, `ExtId` is `uint32_t`, `Data` is `uint8_t[8]`.
`Data` is indexed by any natural number, indices from 8 on being the memory behind
the array. -/
structure CANMsg where
  IDE : Nat
  RTR : Nat
  ExtId : Nat
  DLC : Nat
  Data : Nat → Nat

/-- The payload loop of `decodeSLCAN`, `for (int i = 0; i < can_msg_out->DLC; i++)`, with
`n` iterations remaining: `fromHex` works in place on `Data[i]`, and a `false` from it ends
the decoding. -/
def decodeDataLoop (slcan_msg : SLCANMsg) : Nat → Nat → CANMsg → Bool × CANMsg
  | 0, _, can_msg_out => (true, can_msg_out)
  | n + 1, i, can_msg_out =>
    let r := fromHex 8 slcan_msg (data_off + i * 2) 2
    let can_msg_out := { can_msg_out with Data := Function.update can_msg_out.Data i r.2 }
    if !r.1 then (false, can_msg_out)
    else decodeDataLoop slcan_msg n (i + 1) can_msg_out

/-- The function `decodeSLCAN(slcan_msg, can_msg_out)`: the returned `bool` and the state
of `*can_msg_out` at the return.  The characters `R`, `T` are 82, 84. -/
def decodeSLCAN (slcan_msg : SLCANMsg) (can_msg_out : CANMsg) : Bool × CANMsg :=
  if slcan_msg type_off ≠ 82 ∧ slcan_msg type_off ≠ 84 then (false, can_msg_out)
  else
    let can_msg_out := { can_msg_out with IDE := 0x4 }
    let can_msg_out := { can_msg_out with RTR := if slcan_msg type_off = 82 then 0x2 else 0x0 }
    let r := fromHex 32 slcan_msg id_off 8
    let can_msg_out := { can_msg_out with ExtId := r.2 }
    if !r.1 then (false, can_msg_out)
    else
      let r := fromHex 8 slcan_msg len_off 1
      let can_msg_out := { can_msg_out with DLC := r.2 }
      if !r.1 then (false, can_msg_out)
      else if can_msg_out.DLC > 8 then (false, can_msg_out)
      else decodeDataLoop slcan_msg can_msg_out.DLC 0 can_msg_out

/-- The table `dlc_set` of `encodeSLCAN`: the characters of `"012345678"`.  In C the
literal is followed by its terminating NUL, which is what index 9 reads; `dlc_set.getD i 0`
gives that NUL there.  Indices from 10 on lie outside the literal. -/
def dlc_set : List Nat := ascii "012345678"

/-- The payload loop of `encodeSLCAN`, `for (int i = 0; i < can_msg.DLC; i++)`, with `n`
iterations remaining. -/
def encodeDataLoop (can_msg : CANMsg) : Nat → Nat → SLCANMsg → SLCANMsg
  | 0, _, slcan_msg_out => slcan_msg_out
  | n + 1, i, slcan_msg_out =>
    encodeDataLoop can_msg n (i + 1) (toHex 1 (can_msg.Data i) slcan_msg_out (data_off + i * 2))

/-- The function `encodeSLCAN(can_msg, slcan_msg_out)`: the returned total length and the
state of `*slcan_msg_out` at the return.  There is no error path.  The characters `R`, `T`
and CR are 82, 84 and 13. -/
def encodeSLCAN (can_msg : CANMsg) (slcan_msg_out : SLCANMsg) : Nat × SLCANMsg :=
  let m := Function.update slcan_msg_out len_off (dlc_set.getD can_msg.DLC 0)
  let m := Function.update m type_off (if can_msg.RTR &&& 0x2 ≠ 0 then 82 else 84)
  let m := toHex 4 can_msg.ExtId m id_off
  let m := encodeDataLoop can_msg can_msg.DLC 0 m
  let m := Function.update m (data_off + can_msg.DLC * 2) 13
  (11 + can_msg.DLC * 2, m)

/-- A buffer holding the given characters from offset 0 on, and NUL behind them. -/
def bufferOf (cs : List Nat) : Nat → Nat := fun i => cs.getD i 0

/-- An all-zero CAN message. -/
def zeroMsg : CANMsg := { IDE := 0, RTR := 0, ExtId := 0, DLC := 0, Data := fun _ => 0 }

/-- The frame of the concrete scenario: id `0x1ABCDEF0`, data frame, three bytes 01 02 03. -/
def scenarioMsg : CANMsg :=
  { IDE := 4, RTR := 0, ExtId := 0x1ABCDEF0, DLC := 3, Data := bufferOf [1, 2, 3] }

/-- The frame of the scenario with the data length code 9, which a `uint8_t` field can
hold. -/
def oversizeMsg : CANMsg := { scenarioMsg with DLC := 9 }

/-- A wire frame whose type character is `X`. -/
def badTypeWire : SLCANMsg := bufferOf (ascii "X1ABCDEF03010203\r")

/-- A wire frame whose length character is `9`, with 18 payload characters. -/
def longWire : SLCANMsg := bufferOf (ascii "T1ABCDEF09010203040506070809\r")

/-- A wire frame whose length character is `9`, with other characters in the data field. -/
def longWire2 : SLCANMsg := bufferOf (ascii "T1ABCDEF09zz\r")

/-! ## Outbound queue -/

/-- Modelled from the spec: the declaration of `Message` (header `message.h`) is not among
the sources; `queue` uses the fields `id`, `len` and `data` (up to 8 payload bytes, indexed
here by any natural number). -/
structure Message where
  id : Nat
  len : Nat
  data : Nat → Nat

/-- Modelled from the spec: the class declaration of `SLCANGateway` (header
`slcan_gateway.h`) is not among the sources.  The members used by the queue are the flag
`is_connected_`, the array `write_frames_` and the write cursor `write_frames_index_`.  The
array is indexed by any natural number, slots from the capacity on being the memory behind
the array. -/
structure SLCANGateway where
  is_connected_ : Bool
  write_frames_ : Nat → Message
  write_frames_index_ : Nat

/-- The library function `memmove(dst, src, n)` on byte arrays: the first `n` bytes of
`dst` become those of `src`. -/
def memmove (dst src : Nat → Nat) (n : Nat) : Nat → Nat := fun i => if i < n then src i else dst i

/-- The text of the exception thrown by `SLCANGateway::queue`. -/
def overflowError : String := "Overflow of write_frames_index_ in SLCANGateway."

/-- The method `SLCANGateway::queue(msg)`, where `N` is the capacity
`sizeof(write_frames_) / sizeof(write_frames_[0])`: the frame is stored at the write cursor,
the cursor is advanced, and only then the cursor is compared with the capacity.  The result
is `Except.error` when `std::runtime_error` is thrown, and the state of the gateway at the
return or throw.  A store into a slot from `N` on lands in the memory behind the array,
which is taken to be disjoint from the cursor. -/
def SLCANGateway.queue (N : Nat) (g : SLCANGateway) (msg : Message) :
    Except String Unit × SLCANGateway :=
  let slot := g.write_frames_ g.write_frames_index_
  let slot := { slot with id := msg.id }
  let slot := { slot with len := msg.len }
  let slot := { slot with data := memmove slot.data msg.data msg.len }
  let g := { g with write_frames_ := Function.update g.write_frames_ g.write_frames_index_ slot }
  let g := { g with write_frames_index_ := g.write_frames_index_ + 1 }
  if g.write_frames_index_ > N then (Except.error overflowError, g)
  else (Except.ok (), g)

/-- Consecutive calls of `queue`, one for each message of the list, by a caller that
catches the exception: the outcomes in call order and the final state. -/
def queueAll (N : Nat) : SLCANGateway → List Message → List (Except String Unit) × SLCANGateway
  | g, [] => ([], g)
  | g, msg :: rest =>
    let r := g.queue N msg
    let rs := queueAll N r.2 rest
    (r.1 :: rs.1, rs.2)

/-- A message without payload. -/
def zeroQ : Message := { id := 0, len := 0, data := fun _ => 0 }

/-- A gateway whose outbound queue is empty: the write cursor is 0. -/
def emptyGateway : SLCANGateway :=
  { is_connected_ := false, write_frames_ := fun _ => { id := 0, len := 0, data := fun _ => 0 },
    write_frames_index_ := 0 }

/-! ## Gateway -/

/-- Modelled from the spec: the declaration of `SLCanMsg`, the type of the datagram buffers of
`sendAllQueued` and `recv` (header `slcan_gateway.h`), is not among the sources; it is the
flat character buffer of the wire format. -/
abbrev SLCanMsg := Nat → Nat

/-- The method `SLCANGateway::encodedMsg(slCanMsg, msg)`: its body is empty, so the buffer
passed by reference is left as it is. -/
def SLCANGateway.encodedMsg (slCanMsg : SLCanMsg) (_msg : Message) : SLCanMsg := slCanMsg

/-- The method `SLCANGateway::decodedMsg(msg, slCanMsg)`: its body is empty, so the message
passed by reference is left as it is. -/
def SLCANGateway.decodedMsg (msg : Message) (_slCanMsg : SLCanMsg) : Message := msg

/-- The loop of `sendAllQueued`, `for (int i = 0; i < write_frames_index_; i++)`, with `n`
iterations remaining.  `send_to i request` is the transport: whether the `i`-th call of
`socket_.send_to` sets the error code `err`.  The trace lists each datagram handed to the
transport with that error flag; `err` is not read by the code. -/
def sendLoop (g : SLCANGateway) (send_to : Nat → SLCanMsg → Bool) :
    Nat → Nat → List (SLCanMsg × Bool) → List (SLCanMsg × Bool)
  | 0, _, trace => trace
  | n + 1, i, trace =>
    let request : SLCanMsg := fun _ => 0
    let request := SLCANGateway.encodedMsg request (g.write_frames_ i)
    let err := send_to i request
    sendLoop g send_to n (i + 1) (trace ++ [(request, err)])

/-- The method `SLCANGateway::sendAllQueued()`: the returned `bool`, the state of the gateway
at the return, and the trace of the transport. -/
def SLCANGateway.sendAllQueued (g : SLCANGateway) (send_to : Nat → SLCanMsg → Bool) :
    Bool × SLCANGateway × List (SLCanMsg × Bool) :=
  let trace := sendLoop g send_to g.write_frames_index_ 0 []
  let g := { g with write_frames_index_ := 0 }
  (true, g, trace)

/-- The method `SLCANGateway::recv(msg)`: `nread` is the value returned by
`boost::asio::read` and `datagram` the content it left in the local `slCanMsg`.  The result
is the returned `bool` and the state of `*msg` at the return. -/
def SLCANGateway.recv (_g : SLCANGateway) (msg : Message) (nread : Nat) (datagram : SLCanMsg) :
    Bool × Message :=
  let slCanMsg := datagram
  let msg := if nread ≠ 0 then SLCANGateway.decodedMsg msg slCanMsg else msg
  (false, msg)

/-- The frame of the concrete scenario as a queue message. -/
def scenarioQ : Message := { id := 0x1ABCDEF0, len := 3, data := bufferOf [1, 2, 3] }

/-- A second queue message. -/
def otherQ : Message := { id := 0x123, len := 1, data := bufferOf [0xAA] }

/-- A gateway of capacity 2 whose queue is full: `scenarioQ` and `otherQ` were queued on the
empty gateway. -/
def fullGateway : SLCANGateway := (queueAll 2 emptyGateway [scenarioQ, otherQ]).2

/-- A transport on which every send succeeds. -/
def sendOk : Nat → SLCanMsg → Bool := fun _ _ => false

/-- A transport on which every send sets the error code. -/
def sendFailing : Nat → SLCanMsg → Bool := fun _ _ => true

/-- The well-formed wire frame of the concrete scenario. -/
def scenarioWire : SLCANMsg := bufferOf (ascii "T1ABCDEF03010203\r")

/-- A wire frame in lowercase hex with a remote-request type. -/
def lowerWire : SLCANMsg := bufferOf (ascii "R1abcdef02a1fe\r")

/-- A well-formed wire frame whose identifier is `0xFFFFFFFF`. -/
def wideIdWire : SLCANMsg := bufferOf (ascii "TFFFFFFFF0\r")

/-! ## Vocabulary of the specification -/

/-- A character of `[0-9A-Fa-f]`. -/
def isHexDigit (c : Nat) : Prop := (48 ≤ c ∧ c ≤ 57) ∨ (65 ≤ c ∧ c ≤ 70) ∨ (97 ≤ c ∧ c ≤ 102)

instance (c : Nat) : Decidable (isHexDigit c) := by unfold isHexDigit; infer_instance

/-- The value of a hex digit: `'0'..'9'` are 0..9, and both `'A'..'F'` and `'a'..'f'` are
10..15. -/
def hexDigitValue (c : Nat) : Nat :=
  if 48 ≤ c ∧ c ≤ 57 then c - 48
  else if 65 ≤ c ∧ c ≤ 70 then c - 65 + 10
  else if 97 ≤ c ∧ c ≤ 102 then c - 97 + 10
  else 0

/-- The uppercase form of a character as far as hex digits go: `'a'..'f'` become
`'A'..'F'`, every other character is kept. -/
def toUpperHex (c : Nat) : Nat := if 97 ≤ c ∧ c ≤ 102 then c - 32 else c

/-- The big-endian value of the `n` hex digits `mem[pos .. pos + n)`: the sum over `i` of
`digit(c_i) * 16 ^ (n - 1 - i)`. -/
def hexValue (mem : Nat → Nat) (pos n : Nat) : Nat :=
  ∑ i in Finset.range n, hexDigitValue (mem (pos + i)) * 16 ^ (n - 1 - i)

/-- The uppercase hex digit for the nibble at position `i` (most significant first) of the
`w`-nibble representation of `v`: the entry of `"0123456789ABCDEF"` with index
`(v >> 4 * (w - 1 - i)) & 0xF`. -/
def nibbleChar (w v i : Nat) : Nat := (ascii "0123456789ABCDEF").getD ((v >>> (4 * (w - 1 - i))) &&& 0xF) 0

/-- The state of the caller's frame once `decodeSLCAN` has passed the type check and written
the fields up to `ExtId` (and `DLC`, when `dlc` is the decoded length). -/
def headerWritten (w : SLCANMsg) (c : CANMsg) (dlc : Nat) : CANMsg :=
  { IDE := 0x4, RTR := if w type_off = 82 then 0x2 else 0x0, ExtId := (fromHex 32 w id_off 8).2,
    DLC := dlc, Data := c.Data }

/-! ## Lemmas on `fromHex` -/

theorem fromHexLoop_fails_iff (bits : Nat) (mem : Nat → Nat) (n pos out : Nat) :
    (fromHexLoop bits mem n pos out).1 = false ↔ ∃ i, i < n ∧ ¬ isHexDigit (mem (pos + i)) := by
  induction n generalizing pos out with
  | zero => simp [fromHexLoop]
  | succ n ih =>
    have shift : ∀ P : Nat → Prop, (∃ i, i < n + 1 ∧ P (pos + i)) ↔
        (P pos ∨ ∃ i, i < n ∧ P (pos + 1 + i)) := by
      intro P
      constructor
      · rintro ⟨i, hi, hP⟩
        cases i with
        | zero => exact Or.inl (by simpa using hP)
        | succ k =>
          refine Or.inr ⟨k, by omega, ?_⟩
          have e : pos + 1 + k = pos + (k + 1) := by omega
          rw [e]; exact hP
      · rintro (hP | ⟨k, hk, hP⟩)
        · exact ⟨0, by omega, by simpa using hP⟩
        · refine ⟨k + 1, by omega, ?_⟩
          have e : pos + 1 + k = pos + (k + 1) := by omega
          rw [← e]; exact hP
    rw [shift (fun k => ¬ isHexDigit (mem k))]
    simp only [fromHexLoop]
    by_cases h1 : 48 ≤ mem pos ∧ mem pos ≤ 57
    · rw [if_pos h1, ih]
      have : isHexDigit (mem pos) := Or.inl h1
      simp [this]
    · rw [if_neg h1]
      by_cases h2 : 65 ≤ mem pos ∧ mem pos ≤ 70
      · rw [if_pos h2, ih]
        have : isHexDigit (mem pos) := Or.inr (Or.inl h2)
        simp [this]
      · rw [if_neg h2]
        by_cases h3 : 97 ≤ mem pos ∧ mem pos ≤ 102
        · rw [if_pos h3, ih]
          have : isHexDigit (mem pos) := Or.inr (Or.inr h3)
          simp [this]
        · rw [if_neg h3]
          have : ¬ isHexDigit (mem pos) := by
            rintro (h | h | h)
            · exact h1 h
            · exact h2 h
            · exact h3 h
          simp [this]

theorem hexDigitValue_lt (c : Nat) : hexDigitValue c < 16 := by
  unfold hexDigitValue
  split_ifs <;> omega

theorem hexValue_succ (mem : Nat → Nat) (pos n : Nat) :
    hexValue mem pos (n + 1) = hexDigitValue (mem pos) * 16 ^ n + hexValue mem (pos + 1) n := by
  unfold hexValue
  rw [Finset.sum_range_succ', add_comm]
  congr 1
  apply Finset.sum_congr rfl
  intro i hi
  have hi := Finset.mem_range.mp hi
  have e1 : pos + (i + 1) = pos + 1 + i := by omega
  have e2 : n + 1 - 1 - (i + 1) = n - 1 - i := by omega
  rw [e1, e2]

theorem hexValue_lt (mem : Nat → Nat) (pos n : Nat) : hexValue mem pos n < 16 ^ n := by
  induction n generalizing pos with
  | zero => simp [hexValue]
  | succ n ih =>
    rw [hexValue_succ]
    have h1 := hexDigitValue_lt (mem pos)
    have h2 := ih (pos + 1)
    have h3 : hexDigitValue (mem pos) * 16 ^ n ≤ 15 * 16 ^ n := Nat.mul_le_mul_right _ (by omega)
    rw [pow_succ]
    omega

theorem fromHexLoop_value (bits : Nat) (mem : Nat → Nat) (n pos out : Nat)
    (hout : out < 2 ^ bits) (hhex : ∀ i, i < n → isHexDigit (mem (pos + i))) :
    fromHexLoop bits mem n pos out = (true, (out * 16 ^ n + hexValue mem pos n) % 2 ^ bits) := by
  induction n generalizing pos out with
  | zero => simp [fromHexLoop, hexValue, Nat.mod_eq_of_lt hout]
  | succ n ih =>
    have h0 : isHexDigit (mem pos) := by simpa using hhex 0 (by omega)
    have hrest : ∀ i, i < n → isHexDigit (mem (pos + 1 + i)) := by
      intro i hi
      have e : pos + 1 + i = pos + (i + 1) := by omega
      rw [e]; exact hhex (i + 1) (by omega)
    have hpos : 0 < 2 ^ bits := Nat.pow_pos (by omega)
    have key : ∀ d, d = hexDigitValue (mem pos) →
        fromHexLoop bits mem n (pos + 1) (((out <<< 4) % 2 ^ bits + d) % 2 ^ bits) =
          (true, (out * 16 ^ (n + 1) + hexValue mem pos (n + 1)) % 2 ^ bits) := by
      intro d hd
      rw [ih (pos + 1) _ (Nat.mod_lt _ hpos) hrest, hexValue_succ, Nat.shiftLeft_eq, ← hd]
      congr 1
      have e : out * 16 ^ (n + 1) + (d * 16 ^ n + hexValue mem (pos + 1) n)
          = (out * 2 ^ 4 + d) * 16 ^ n + hexValue mem (pos + 1) n := by ring
      rw [e]
      conv_rhs => rw [Nat.add_mod, Nat.mul_mod, Nat.add_mod (out * 2 ^ 4)]
      conv_lhs => rw [Nat.add_mod, Nat.mul_mod]
      simp
    simp only [fromHexLoop]
    unfold hexDigitValue at key
    by_cases h1 : 48 ≤ mem pos ∧ mem pos ≤ 57
    · rw [if_pos h1]; exact key _ (by rw [if_pos h1])
    · rw [if_neg h1]
      by_cases h2 : 65 ≤ mem pos ∧ mem pos ≤ 70
      · rw [if_pos h2]; exact key _ (by rw [if_neg h1, if_pos h2]; omega)
      · rw [if_neg h2]
        by_cases h3 : 97 ≤ mem pos ∧ mem pos ≤ 102
        · rw [if_pos h3]; exact key _ (by rw [if_neg h1, if_neg h2, if_pos h3]; omega)
        · exfalso
          rcases h0 with h | h | h
          · exact h1 h
          · exact h2 h
          · exact h3 h

theorem fromHexLoop_congr (bits : Nat) (mem mem2 : Nat → Nat) (n pos out : Nat)
    (h : ∀ i, i < n → mem (pos + i) = mem2 (pos + i)) :
    fromHexLoop bits mem n pos out = fromHexLoop bits mem2 n pos out := by
  induction n generalizing pos out with
  | zero => simp [fromHexLoop]
  | succ n ih =>
    have h0 : mem pos = mem2 pos := by simpa using h 0 (by omega)
    have hrest : ∀ i, i < n → mem (pos + 1 + i) = mem2 (pos + 1 + i) := by
      intro i hi
      have e : pos + 1 + i = pos + (i + 1) := by omega
      rw [e]; exact h (i + 1) (by omega)
    simp only [fromHexLoop, h0, ih (pos + 1) _ hrest]

/-! ## Lemmas on `toHex` -/

theorem hex_set_getD_eq (k : Nat) (hk : k < 16) :
    isHexDigit (hex_set.getD k 0) ∧ hexDigitValue (hex_set.getD k 0) = k ∧
      toUpperHex (hex_set.getD k 0) = hex_set.getD k 0 := by
  revert k
  decide

theorem toHexLoop_apply (n val : Nat) (mem : Nat → Nat) (p : Nat) (hn : n ≤ p + 1) (j : Nat) :
    toHexLoop n val mem p j =
      if p + 1 - n ≤ j ∧ j ≤ p then hex_set.getD ((val >>> (4 * (p - j))) &&& 0xf) 0
      else mem j := by
  induction n generalizing val mem p with
  | zero =>
    have : ¬ (p + 1 - 0 ≤ j ∧ j ≤ p) := by omega
    simp only [toHexLoop]
    rw [if_neg this]
  | succ n ih =>
    simp only [toHexLoop]
    rw [ih (val >>> 4) _ (p - 1) (by omega)]
    by_cases hj : j = p
    · subst hj
      have c1 : ¬ (j - 1 + 1 - n ≤ j ∧ j ≤ j - 1) := by omega
      have c2 : j + 1 - (n + 1) ≤ j ∧ j ≤ j := by omega
      rw [if_neg c1, if_pos c2]
      simp
    · rw [Function.update_noteq hj]
      by_cases hr : p + 1 - (n + 1) ≤ j ∧ j ≤ p
      · have c1 : p - 1 + 1 - n ≤ j ∧ j ≤ p - 1 := by omega
        rw [if_pos c1, if_pos hr, ← Nat.shiftRight_add]
        have e : 4 + 4 * (p - 1 - j) = 4 * (p - j) := by omega
        rw [e]
      · have c1 : ¬ (p - 1 + 1 - n ≤ j ∧ j ≤ p - 1) := by omega
        rw [if_neg c1, if_neg hr]

theorem toHex_apply (size val : Nat) (mem : Nat → Nat) (pos : Nat) (j : Nat) :
    toHex size val mem pos j =
      if pos ≤ j ∧ j < pos + size * 2 then nibbleChar (size * 2) val (j - pos) else mem j := by
  unfold toHex
  rw [toHexLoop_apply _ _ _ _ (by omega)]
  by_cases hr : pos ≤ j ∧ j < pos + size * 2
  · have c1 : pos + (size * 2 - 1) + 1 - size * 2 ≤ j ∧ j ≤ pos + (size * 2 - 1) := by omega
    have e : pos + (size * 2 - 1) - j = size * 2 - 1 - (j - pos) := by omega
    rw [if_pos c1, if_pos hr, e]
    rfl
  · have c1 : ¬ (pos + (size * 2 - 1) + 1 - size * 2 ≤ j ∧ j ≤ pos + (size * 2 - 1)) := by omega
    rw [if_neg c1, if_neg hr]

theorem nibble_lt (v k : Nat) : (v >>> k) &&& 0xf < 16 := by
  have : (0xf : Nat) = 2 ^ 4 - 1 := by norm_num
  rw [this, Nat.and_pow_two_sub_one_eq_mod]
  exact Nat.mod_lt _ (by norm_num)

theorem nibbleChar_spec (w v i : Nat) :
    isHexDigit (nibbleChar w v i) ∧
      hexDigitValue (nibbleChar w v i) = (v / 16 ^ (w - 1 - i)) % 16 ∧
      toUpperHex (nibbleChar w v i) = nibbleChar w v i := by
  have h := hex_set_getD_eq _ (nibble_lt v (4 * (w - 1 - i)))
  have e : (v >>> (4 * (w - 1 - i))) &&& 0xf = (v / 16 ^ (w - 1 - i)) % 16 := by
    have : (0xf : Nat) = 2 ^ 4 - 1 := by norm_num
    rw [this, Nat.and_pow_two_sub_one_eq_mod, Nat.shiftRight_eq_div_pow, pow_mul]
    norm_num
  unfold nibbleChar
  change isHexDigit (hex_set.getD _ 0) ∧ hexDigitValue (hex_set.getD _ 0) = _ ∧
    toUpperHex (hex_set.getD _ 0) = hex_set.getD _ 0
  rw [← e]
  exact h

theorem digits_sum (v n : Nat) :
    ∑ i in Finset.range n, (v / 16 ^ (n - 1 - i)) % 16 * 16 ^ (n - 1 - i) = v % 16 ^ n := by
  rw [Finset.sum_range_reflect (fun k => (v / 16 ^ k) % 16 * 16 ^ k) n]
  induction n with
  | zero => simp [Nat.mod_one]
  | succ n ih =>
    rw [Finset.sum_range_succ, ih, Nat.mod_pow_succ]
    ring

/-- Reading with `fromHex` the `size * 2` nibble characters of `val`: the value modulo
`16 ^ (size * 2)`. -/
theorem fromHex_nibbles (size val : Nat) (mem : Nat → Nat) (pos : Nat)
    (hc : ∀ i, i < size * 2 → mem (pos + i) = nibbleChar (size * 2) val i) :
    fromHex (8 * size) mem pos ((size * 2 : Nat) : Int) = (true, val % 16 ^ (size * 2)) := by
  unfold fromHex
  rw [Int.toNat_ofNat, fromHexLoop_value _ _ _ _ _ (Nat.pow_pos (by omega))]
  · have e : hexValue mem pos (size * 2) = val % 16 ^ (size * 2) := by
      rw [← digits_sum]
      unfold hexValue
      apply Finset.sum_congr rfl
      intro i hi
      rw [hc i (Finset.mem_range.mp hi), (nibbleChar_spec _ _ _).2.1]
    have e2 : (2 : Nat) ^ (8 * size) = 16 ^ (size * 2) := by
      rw [show (16 : Nat) = 2 ^ 4 by norm_num, ← pow_mul]; congr 1; omega
    rw [e, e2, Nat.zero_mul, Nat.zero_add, Nat.mod_mod]
  · intro i hi
    rw [hc i hi]
    exact (nibbleChar_spec _ _ _).1

theorem isHexDigit_toUpperHex (c : Nat) (h : isHexDigit c) :
    isHexDigit (toUpperHex c) ∧ hexDigitValue (toUpperHex c) = hexDigitValue c := by
  unfold isHexDigit at h
  unfold isHexDigit toUpperHex hexDigitValue
  split_ifs <;> omega

/-! ## Lemmas on `encodeSLCAN` -/

theorem encodeDataLoop_apply (can_msg : CANMsg) (n i : Nat) (m : SLCANMsg) (j : Nat) :
    encodeDataLoop can_msg n i m j =
      if 10 + 2 * i ≤ j ∧ j < 10 + 2 * (i + n) then
        nibbleChar 2 (can_msg.Data ((j - 10) / 2)) ((j - 10) % 2)
      else m j := by
  induction n generalizing i m with
  | zero =>
    have : ¬ (10 + 2 * i ≤ j ∧ j < 10 + 2 * (i + 0)) := by omega
    simp only [encodeDataLoop]
    rw [if_neg this]
  | succ n ih =>
    simp only [encodeDataLoop]
    rw [ih, toHex_apply, data_off]
    by_cases h1 : 10 + 2 * (i + 1) ≤ j ∧ j < 10 + 2 * (i + 1 + n)
    · have c : 10 + 2 * i ≤ j ∧ j < 10 + 2 * (i + (n + 1)) := by omega
      rw [if_pos h1, if_pos c]
    · rw [if_neg h1]
      by_cases h2 : 10 + i * 2 ≤ j ∧ j < 10 + i * 2 + 1 * 2
      · have c : 10 + 2 * i ≤ j ∧ j < 10 + 2 * (i + (n + 1)) := by omega
        have e1 : (j - 10) / 2 = i := by omega
        have e2 : (j - 10) % 2 = j - (10 + i * 2) := by omega
        rw [if_pos h2, if_pos c, e1, e2]
      · have c : ¬ (10 + 2 * i ≤ j ∧ j < 10 + 2 * (i + (n + 1))) := by omega
        rw [if_neg h2, if_neg c]

theorem encodeSLCAN_apply (can_msg : CANMsg) (buf : SLCANMsg) (j : Nat) :
    (encodeSLCAN can_msg buf).2 j =
      if j = 10 + 2 * can_msg.DLC then 13
      else if 10 ≤ j ∧ j < 10 + 2 * can_msg.DLC then
        nibbleChar 2 (can_msg.Data ((j - 10) / 2)) ((j - 10) % 2)
      else if 1 ≤ j ∧ j < 9 then nibbleChar 8 can_msg.ExtId (j - 1)
      else if j = 0 then (if can_msg.RTR &&& 0x2 ≠ 0 then 82 else 84)
      else if j = 9 then dlc_set.getD can_msg.DLC 0
      else buf j := by
  simp only [encodeSLCAN, data_off, id_off, type_off, len_off]
  by_cases h0 : j = 10 + 2 * can_msg.DLC
  · have e : 10 + can_msg.DLC * 2 = j := by omega
    rw [if_pos h0, e, Function.update_same]
  · have e : j ≠ 10 + can_msg.DLC * 2 := by omega
    rw [if_neg h0, Function.update_noteq e, encodeDataLoop_apply]
    by_cases h1 : 10 ≤ j ∧ j < 10 + 2 * can_msg.DLC
    · have c : 10 + 2 * 0 ≤ j ∧ j < 10 + 2 * (0 + can_msg.DLC) := by omega
      rw [if_pos h1, if_pos c]
    · have c : ¬ (10 + 2 * 0 ≤ j ∧ j < 10 + 2 * (0 + can_msg.DLC)) := by omega
      rw [if_neg h1, if_neg c, toHex_apply]
      by_cases h2 : 1 ≤ j ∧ j < 9
      · have c2 : 1 ≤ j ∧ j < 1 + 4 * 2 := by omega
        rw [if_pos h2, if_pos c2]
      · have c2 : ¬ (1 ≤ j ∧ j < 1 + 4 * 2) := by omega
        rw [if_neg h2, if_neg c2]
        by_cases h3 : j = 0
        · subst h3
          simp
        · rw [if_neg h3, Function.update_noteq h3]
          by_cases h4 : j = 9
          · subst h4
            simp
          · rw [if_neg h4, Function.update_noteq h4]

theorem dlc_set_getD (d : Nat) (h : d < 9) : dlc_set.getD d 0 = 48 + d := by
  revert d
  decide

/-! ## Lemmas on `decodeSLCAN` -/

theorem CANMsg.eq_of_fields (a b : CANMsg) (h1 : a.IDE = b.IDE) (h2 : a.RTR = b.RTR)
    (h3 : a.ExtId = b.ExtId) (h4 : a.DLC = b.DLC) (h5 : ∀ j, a.Data j = b.Data j) : a = b := by
  cases a
  cases b
  simp only [CANMsg.mk.injEq] at *
  exact ⟨h1, h2, h3, h4, funext h5⟩

theorem decodeDataLoop_ok (w : SLCANMsg) (d : Nat → Nat) (n i : Nat) (c : CANMsg)
    (h : ∀ k, i ≤ k → k < i + n → fromHex 8 w (data_off + k * 2) 2 = (true, d k)) :
    decodeDataLoop w n i c =
      (true, { c with Data := fun j => if i ≤ j ∧ j < i + n then d j else c.Data j }) := by
  induction n generalizing i c with
  | zero =>
    simp only [decodeDataLoop]
    congr 1
    apply CANMsg.eq_of_fields <;> try rfl
    intro j
    show c.Data j = if i ≤ j ∧ j < i + 0 then d j else c.Data j
    rw [if_neg (by omega)]
  | succ n ih =>
    simp only [decodeDataLoop]
    rw [h i (by omega) (by omega)]
    simp only [Bool.not_true, Bool.false_eq_true, if_false]
    rw [ih (i + 1) _ (fun k h1 h2 => h k (by omega) (by omega))]
    congr 1
    apply CANMsg.eq_of_fields <;> try rfl
    intro j
    show (if i + 1 ≤ j ∧ j < i + 1 + n then d j else Function.update c.Data i (d i) j) =
      if i ≤ j ∧ j < i + (n + 1) then d j else c.Data j
    by_cases h1 : i + 1 ≤ j ∧ j < i + 1 + n
    · rw [if_pos h1, if_pos (by omega)]
    · rw [if_neg h1]
      by_cases h2 : j = i
      · subst h2
        rw [if_pos (by omega), Function.update_same]
      · rw [if_neg (by omega), Function.update_noteq h2]

theorem decodeSLCAN_ok (w : SLCANMsg) (c : CANMsg) (id dlc : Nat) (d : Nat → Nat)
    (htype : w type_off = 82 ∨ w type_off = 84)
    (hid : fromHex 32 w id_off 8 = (true, id))
    (hlen : fromHex 8 w len_off 1 = (true, dlc)) (hdlc : dlc ≤ 8)
    (hdata : ∀ k, k < dlc → fromHex 8 w (data_off + k * 2) 2 = (true, d k)) :
    decodeSLCAN w c =
      (true, { IDE := 0x4, RTR := if w type_off = 82 then 0x2 else 0x0, ExtId := id, DLC := dlc,
               Data := fun j => if j < dlc then d j else c.Data j }) := by
  unfold decodeSLCAN
  rw [if_neg (by omega), hid, hlen]
  simp only [Bool.not_true, Bool.false_eq_true, if_false]
  rw [if_neg (by omega), decodeDataLoop_ok w d dlc 0 _ (fun k _ h2 => hdata k (by omega))]
  congr 1
  apply CANMsg.eq_of_fields <;> try rfl
  intro j
  show (if 0 ≤ j ∧ j < 0 + dlc then d j else c.Data j) = if j < dlc then d j else c.Data j
  by_cases h : j < dlc
  · rw [if_pos h, if_pos (by omega)]
  · rw [if_neg h, if_neg (by omega)]

theorem fromHex_one_digit (w : SLCANMsg) (pos d : Nat) (h : w pos = 48 + d) (hd : d < 10) :
    fromHex 8 w pos 1 = (true, d) := by
  have e : (48 + d - 48) % 2 ^ 8 = d := by
    rw [Nat.add_sub_cancel_left, Nat.mod_eq_of_lt (by omega)]
  simp only [fromHex, fromHexLoop, h, Int.toNat_one]
  rw [if_pos (by omega), Nat.zero_shiftLeft, Nat.zero_mod, Nat.zero_add, e]

theorem fromHex_false_iff (bits : Nat) (mem : Nat → Nat) (pos n : Nat) :
    (fromHex bits mem pos (n : Int)).1 = false ↔ ∃ i, i < n ∧ ¬ isHexDigit (mem (pos + i)) := by
  unfold fromHex
  rw [Int.toNat_ofNat, fromHexLoop_fails_iff]

theorem fromHex_true_iff (bits : Nat) (mem : Nat → Nat) (pos n : Nat) :
    (fromHex bits mem pos (n : Int)).1 = true ↔ ∀ i, i < n → isHexDigit (mem (pos + i)) := by
  have h := fromHex_false_iff bits mem pos n
  constructor
  · intro ht i hi
    by_contra hc
    have := h.mpr ⟨i, hi, hc⟩
    rw [ht] at this
    exact Bool.noConfusion this
  · intro hall
    cases hv : (fromHex bits mem pos (n : Int)).1 with
    | true => rfl
    | false =>
      obtain ⟨i, hi, hc⟩ := h.mp hv
      exact absurd (hall i hi) hc

theorem fromHex_one_char (w : SLCANMsg) (pos : Nat) :
    fromHex 8 w pos 1 =
      (decide (isHexDigit (w pos)), if isHexDigit (w pos) then hexDigitValue (w pos) else 0) := by
  simp only [fromHex, fromHexLoop, Int.toNat_one, Nat.zero_shiftLeft, Nat.zero_mod, Nat.zero_add]
  unfold isHexDigit hexDigitValue
  by_cases h1 : 48 ≤ w pos ∧ w pos ≤ 57
  · simp [h1]
    omega
  · by_cases h2 : 65 ≤ w pos ∧ w pos ≤ 70
    · simp [h1, h2]
      omega
    · by_cases h3 : 97 ≤ w pos ∧ w pos ≤ 102
      · simp [h1, h2, h3]
        omega
      · simp [h1, h2, h3]

theorem decodeSLCAN_eq (w : SLCANMsg) (c : CANMsg) :
    decodeSLCAN w c =
      if w type_off ≠ 82 ∧ w type_off ≠ 84 then (false, c)
      else if (fromHex 32 w id_off 8).1 = false then (false, headerWritten w c c.DLC)
      else if ¬ isHexDigit (w len_off) then (false, headerWritten w c 0)
      else if hexDigitValue (w len_off) > 8 then
        (false, headerWritten w c (hexDigitValue (w len_off)))
      else decodeDataLoop w (hexDigitValue (w len_off)) 0
        (headerWritten w c (hexDigitValue (w len_off))) := by
  unfold decodeSLCAN headerWritten
  by_cases ht : w type_off ≠ 82 ∧ w type_off ≠ 84
  · rw [if_pos ht, if_pos ht]
  · rw [if_neg ht, if_neg ht]
    by_cases h1 : (fromHex 32 w id_off 8).1 = false
    · simp only [h1, Bool.not_false, if_true]
    · have h1t : (fromHex 32 w id_off 8).1 = true := by simpa using h1
      simp only [h1t, Bool.not_true, Bool.false_eq_true, if_false]
      rw [fromHex_one_char]
      by_cases hd : isHexDigit (w len_off)
      · simp only [hd, decide_True, if_true, Bool.not_true, Bool.false_eq_true, if_false,
          not_true_eq_false, Bool.true_eq_false]
      · simp only [hd, decide_False, if_false, Bool.not_false, if_true, not_false_eq_true,
          Bool.true_eq_false]

/-! ## Lemmas on the outbound queue -/

/-- C7: for every buffer and every count, `fromHex` returns `false` if and only if one of
the first `len` characters is outside `[0-9A-Fa-f]`; so it never returns `true` after
having met an invalid character.  (For a negative count no character is read and the
result is `true`.) -/
theorem fromHex_false_iff_invalid_char (bits : Nat) (mem : Nat → Nat) (pos : Nat) (len : Int) :
    (fromHex bits mem pos len).1 = false ↔
      ∃ i : Nat, (i : Int) < len ∧ ¬ isHexDigit (mem (pos + i)) := by
  unfold fromHex
  rw [fromHexLoop_fails_iff]
  constructor
  · rintro ⟨i, hi, hc⟩
    exact ⟨i, by omega, hc⟩
  · rintro ⟨i, hi, hc⟩
    exact ⟨i, by omega, hc⟩

/-- C8: on `n` hex digits, `n` at most twice the byte size of the output type, `fromHex`
returns `true` and the output is the sum of `digit(c_i) * 16 ^ (n - 1 - i)`; the uppercase
form of the input decodes to the same result. -/
theorem fromHex_value_big_endian (size : Nat) (mem : Nat → Nat) (pos n : Nat)
    (hn : n ≤ 2 * size) (hhex : ∀ i, i < n → isHexDigit (mem (pos + i))) :
    fromHex (8 * size) mem pos (n : Int) =
        (true, ∑ i in Finset.range n, hexDigitValue (mem (pos + i)) * 16 ^ (n - 1 - i)) ∧
      fromHex (8 * size) (fun j => toUpperHex (mem j)) pos (n : Int) =
        fromHex (8 * size) mem pos (n : Int) := by
  have hlt : ∀ m : Nat → Nat, hexValue m pos n < 2 ^ (8 * size) := by
    intro m
    have e2 : (2 : Nat) ^ (8 * size) = 16 ^ (2 * size) := by
      rw [show (16 : Nat) = 2 ^ 4 by norm_num, ← pow_mul]; congr 1; omega
    rw [e2]
    exact lt_of_lt_of_le (hexValue_lt m pos n) (Nat.pow_le_pow_right (by norm_num) hn)
  have main : ∀ m : Nat → Nat, (∀ i, i < n → isHexDigit (m (pos + i))) →
      fromHex (8 * size) m pos (n : Int) = (true, hexValue m pos n) := by
    intro m hm
    unfold fromHex
    rw [Int.toNat_ofNat, fromHexLoop_value _ _ _ _ _ (Nat.pow_pos (by omega)) hm,
      Nat.zero_mul, Nat.zero_add, Nat.mod_eq_of_lt (hlt m)]
  refine ⟨main mem hhex, ?_⟩
  rw [main mem hhex, main _ (fun i hi => (isHexDigit_toUpperHex _ (hhex i hi)).1)]
  congr 1
  unfold hexValue
  apply Finset.sum_congr rfl
  intro i hi
  rw [(isHexDigit_toUpperHex _ (hhex i (Finset.mem_range.mp hi))).2]

/-- Witness for C8: the eight digits `1aBcdEf0` read into a 32-bit integer. -/
theorem fromHex_value_big_endian_witness :
    (8 ≤ 2 * 4 ∧ ∀ i, i < 8 → isHexDigit (bufferOf (ascii "1aBcdEf0") (0 + i))) ∧
      fromHex 32 (bufferOf (ascii "1aBcdEf0")) 0 8 = (true, 0x1ABCDEF0) ∧
      fromHex 32 (fun j => toUpperHex (bufferOf (ascii "1aBcdEf0") j)) 0 8 =
        fromHex 32 (bufferOf (ascii "1aBcdEf0")) 0 8 :=
  ⟨⟨by decide, by decide⟩,
    (fromHex_value_big_endian 4 (bufferOf (ascii "1aBcdEf0")) 0 8 (by decide) (by decide)).1.trans
      (by decide),
    (fromHex_value_big_endian 4 (bufferOf (ascii "1aBcdEf0")) 0 8 (by decide) (by decide)).2⟩

/-- C9: `toHex` of a value of a type of `size` bytes writes exactly `size * 2` characters:
the character at offset `i` is the entry of `"0123456789ABCDEF"` with index
`(val >> 4 * (size * 2 - 1 - i)) & 0xF`, and no other character of the memory changes;
`toHex` of the 32-bit value `0xDEADBEEF` writes `DEADBEEF`. -/
theorem toHex_writes_nibbles_msb_first (size val : Nat) (mem : Nat → Nat) (pos : Nat) :
    (∀ i, i < size * 2 → toHex size val mem pos (pos + i) =
        (ascii "0123456789ABCDEF").getD ((val >>> (4 * (size * 2 - 1 - i))) &&& 0xF) 0) ∧
      (∀ j, j < pos ∨ pos + size * 2 ≤ j → toHex size val mem pos j = mem j) ∧
      readChars (toHex 4 0xDEADBEEF mem pos) pos 8 = ascii "DEADBEEF" := by
  refine ⟨?_, ?_, ?_⟩
  · intro i hi
    rw [toHex_apply, if_pos (by omega), Nat.add_sub_cancel_left]
    rfl
  · intro j hj
    rw [toHex_apply, if_neg (by omega)]
  · have h : ∀ i, i < 8 → toHex 4 0xDEADBEEF mem pos (pos + i) = nibbleChar 8 0xDEADBEEF i := by
      intro i hi
      rw [toHex_apply, if_pos (by omega), Nat.add_sub_cancel_left]
    have e : readChars (toHex 4 0xDEADBEEF mem pos) pos 8 =
        (List.range 8).map (nibbleChar 8 0xDEADBEEF) := by
      unfold readChars
      apply List.map_congr_left
      intro i hi
      exact h i (List.mem_range.mp hi)
    rw [e]
    decide

/-! ## Claims on the frame codec -/

/-- C2: for a frame with `DLC <= 8`, `encodeSLCAN` returns `11 + 2 * DLC` and writes the type
character (`R` if `RTR & 0x2`, else `T`) at offset 0, the identifier as 8 uppercase hex
characters at offsets 1..8, the digit of `DLC` at offset 9, each of the first `DLC` payload
bytes as 2 uppercase hex characters from offset 10 and CR at offset `10 + 2 * DLC`; the frame
of the concrete scenario gives the 17 characters `T1ABCDEF03010203` and CR. -/
theorem encodeSLCAN_wire_format (can_msg : CANMsg) (buf : SLCANMsg) (hdlc : can_msg.DLC ≤ 8) :
    (encodeSLCAN can_msg buf).1 = 11 + 2 * can_msg.DLC ∧
      (encodeSLCAN can_msg buf).2 0 =
        (if can_msg.RTR &&& 0x2 ≠ 0 then 'R'.toNat else 'T'.toNat) ∧
      (∀ i, i < 8 → (encodeSLCAN can_msg buf).2 (1 + i) =
        (ascii "0123456789ABCDEF").getD ((can_msg.ExtId >>> (4 * (8 - 1 - i))) &&& 0xF) 0) ∧
      (encodeSLCAN can_msg buf).2 9 = '0'.toNat + can_msg.DLC ∧
      (∀ k j, k < can_msg.DLC → j < 2 → (encodeSLCAN can_msg buf).2 (10 + 2 * k + j) =
        (ascii "0123456789ABCDEF").getD ((can_msg.Data k >>> (4 * (2 - 1 - j))) &&& 0xF) 0) ∧
      (encodeSLCAN can_msg buf).2 (10 + 2 * can_msg.DLC) = 13 ∧
      ((encodeSLCAN scenarioMsg buf).1 = 17 ∧
        readChars (encodeSLCAN scenarioMsg buf).2 0 17 = ascii "T1ABCDEF03010203\r") := by
  have hscen : ∀ j, j < 17 → (encodeSLCAN scenarioMsg buf).2 j =
      (ascii "T1ABCDEF03010203\r").getD j 0 := by
    intro j hj
    rw [encodeSLCAN_apply]
    interval_cases j <;> rfl
  refine ⟨?_, ?_, ?_, ?_, ?_, ?_, ?_, ?_⟩
  · simp only [encodeSLCAN]; omega
  · rw [encodeSLCAN_apply, if_neg (by omega), if_neg (by omega), if_neg (by omega), if_pos rfl]
    rfl
  · intro i hi
    rw [encodeSLCAN_apply, if_neg (by omega), if_neg (by omega), if_pos (by omega),
      Nat.add_sub_cancel_left]
    rfl
  · rw [encodeSLCAN_apply, if_neg (by omega), if_neg (by omega), if_neg (by omega),
      if_neg (by omega), if_pos rfl, dlc_set_getD _ (by omega)]
    rfl
  · intro k j hk hj
    have e1 : (10 + 2 * k + j - 10) / 2 = k := by omega
    have e2 : (10 + 2 * k + j - 10) % 2 = j := by omega
    rw [encodeSLCAN_apply, if_neg (by omega), if_pos (by omega), e1, e2]
    rfl
  · rw [encodeSLCAN_apply, if_pos rfl]
  · rfl
  · have e : readChars (encodeSLCAN scenarioMsg buf).2 0 17 =
        (List.range 17).map (fun j => (ascii "T1ABCDEF03010203\r").getD j 0) := by
      unfold readChars
      apply List.map_congr_left
      intro i hi
      rw [Nat.zero_add]
      exact hscen i (List.mem_range.mp hi)
    rw [e]
    decide

/-- Witness for C2: the frame of the concrete scenario. -/
theorem encodeSLCAN_wire_format_witness :
    scenarioMsg.DLC ≤ 8 ∧ (encodeSLCAN scenarioMsg (fun _ => 0)).1 = 17 ∧
      readChars (encodeSLCAN scenarioMsg (fun _ => 0)).2 0 17 = ascii "T1ABCDEF03010203\r" :=
  ⟨by decide, (encodeSLCAN_wire_format scenarioMsg (fun _ => 0) (by decide)).2.2.2.2.2.2⟩

/-- C4: a wire frame whose type character is neither `R` nor `T` makes `decodeSLCAN` return
`false`, whatever the other fields hold. -/
theorem decodeSLCAN_rejects_bad_type (w : SLCANMsg) (c : CANMsg)
    (htype : w type_off ≠ 'R'.toNat ∧ w type_off ≠ 'T'.toNat) :
    (decodeSLCAN w c).1 = false := by
  have h : w type_off ≠ 82 ∧ w type_off ≠ 84 := htype
  unfold decodeSLCAN
  rw [if_pos h]

/-- Witness for C4: the type character `X`. -/
theorem decodeSLCAN_rejects_bad_type_witness :
    (badTypeWire type_off ≠ 'R'.toNat ∧ badTypeWire type_off ≠ 'T'.toNat) ∧
      (decodeSLCAN badTypeWire zeroMsg).1 = false :=
  ⟨by decide, decodeSLCAN_rejects_bad_type badTypeWire zeroMsg (by decide)⟩

/-- C1: for a frame with `DLC` in 0..8, `ExtId < 2 ^ 29`, `RTR` either `0x2` or 0 and payload
bytes in the range of `uint8_t`, `decodeSLCAN` on the wire frame written by `encodeSLCAN`
returns `true` and yields the same `ExtId`, `RTR`, `DLC` and first `DLC` payload bytes. -/
theorem decodeSLCAN_encodeSLCAN_roundtrip (can_msg : CANMsg) (buf : SLCANMsg) (out : CANMsg)
    (hdlc : can_msg.DLC ≤ 8) (hid : can_msg.ExtId < 2 ^ 29)
    (hrtr : can_msg.RTR = 0x2 ∨ can_msg.RTR = 0)
    (hdata : ∀ i, i < can_msg.DLC → can_msg.Data i < 256) :
    (decodeSLCAN (encodeSLCAN can_msg buf).2 out).1 = true ∧
      (decodeSLCAN (encodeSLCAN can_msg buf).2 out).2.ExtId = can_msg.ExtId ∧
      (decodeSLCAN (encodeSLCAN can_msg buf).2 out).2.RTR = can_msg.RTR ∧
      (decodeSLCAN (encodeSLCAN can_msg buf).2 out).2.DLC = can_msg.DLC ∧
      ∀ i, i < can_msg.DLC →
        (decodeSLCAN (encodeSLCAN can_msg buf).2 out).2.Data i = can_msg.Data i := by
  have w0 : (encodeSLCAN can_msg buf).2 type_off = if can_msg.RTR &&& 0x2 ≠ 0 then 82 else 84 := by
    rw [encodeSLCAN_apply, type_off, if_neg (by omega), if_neg (by omega), if_neg (by omega),
      if_pos rfl]
  have wid : ∀ i, i < 4 * 2 → (encodeSLCAN can_msg buf).2 (id_off + i) =
      nibbleChar (4 * 2) can_msg.ExtId i := by
    intro i hi
    rw [encodeSLCAN_apply, id_off, if_neg (by omega), if_neg (by omega), if_pos (by omega),
      Nat.add_sub_cancel_left]
  have wlen : (encodeSLCAN can_msg buf).2 len_off = 48 + can_msg.DLC := by
    rw [encodeSLCAN_apply, len_off, if_neg (by omega), if_neg (by omega), if_neg (by omega),
      if_neg (by omega), if_pos rfl, dlc_set_getD _ (by omega)]
  have wdata : ∀ k, k < can_msg.DLC → ∀ j, j < 1 * 2 →
      (encodeSLCAN can_msg buf).2 (data_off + k * 2 + j) = nibbleChar (1 * 2) (can_msg.Data k) j := by
    intro k hk j hj
    have e1 : (10 + k * 2 + j - 10) / 2 = k := by omega
    have e2 : (10 + k * 2 + j - 10) % 2 = j := by omega
    rw [encodeSLCAN_apply, data_off, if_neg (by omega), if_pos (by omega), e1, e2]
  have htype : (encodeSLCAN can_msg buf).2 type_off = 82 ∨ (encodeSLCAN can_msg buf).2 type_off = 84 := by
    rw [w0]
    split_ifs
    · exact Or.inl rfl
    · exact Or.inr rfl
  have fid : fromHex 32 (encodeSLCAN can_msg buf).2 id_off 8 = (true, can_msg.ExtId) := by
    have h := fromHex_nibbles 4 can_msg.ExtId _ id_off wid
    have e : can_msg.ExtId % 16 ^ (4 * 2) = can_msg.ExtId :=
      Nat.mod_eq_of_lt (lt_trans hid (by norm_num))
    rw [e] at h
    exact h
  have flen : fromHex 8 (encodeSLCAN can_msg buf).2 len_off 1 = (true, can_msg.DLC) :=
    fromHex_one_digit _ _ _ wlen (by omega)
  have fdata : ∀ k, k < can_msg.DLC →
      fromHex 8 (encodeSLCAN can_msg buf).2 (data_off + k * 2) 2 = (true, can_msg.Data k) := by
    intro k hk
    have h := fromHex_nibbles 1 (can_msg.Data k) _ (data_off + k * 2) (wdata k hk)
    have e : can_msg.Data k % 16 ^ (1 * 2) = can_msg.Data k :=
      Nat.mod_eq_of_lt (lt_of_lt_of_le (hdata k hk) (by norm_num))
    rw [e] at h
    exact h
  rw [decodeSLCAN_ok _ out _ _ can_msg.Data htype fid flen hdlc fdata]
  refine ⟨rfl, rfl, ?_, rfl, ?_⟩
  · show (if (encodeSLCAN can_msg buf).2 type_off = 82 then 0x2 else 0x0) = can_msg.RTR
    rw [w0]
    rcases hrtr with h | h <;> rw [h] <;> rfl
  · intro i hi
    show (if i < can_msg.DLC then can_msg.Data i else out.Data i) = can_msg.Data i
    rw [if_pos hi]

/-- Witness for C1: the frame of the concrete scenario, encoded into a zeroed buffer and
decoded into a zeroed message. -/
theorem decodeSLCAN_encodeSLCAN_roundtrip_witness :
    (scenarioMsg.DLC ≤ 8 ∧ scenarioMsg.ExtId < 2 ^ 29 ∧ (scenarioMsg.RTR = 0x2 ∨ scenarioMsg.RTR = 0) ∧
        ∀ i, i < scenarioMsg.DLC → scenarioMsg.Data i < 256) ∧
      (decodeSLCAN (encodeSLCAN scenarioMsg (fun _ => 0)).2 zeroMsg).1 = true ∧
      (decodeSLCAN (encodeSLCAN scenarioMsg (fun _ => 0)).2 zeroMsg).2.ExtId = 0x1ABCDEF0 ∧
      (decodeSLCAN (encodeSLCAN scenarioMsg (fun _ => 0)).2 zeroMsg).2.RTR = 0 ∧
      (decodeSLCAN (encodeSLCAN scenarioMsg (fun _ => 0)).2 zeroMsg).2.DLC = 3 ∧
      ∀ i, i < 3 → (decodeSLCAN (encodeSLCAN scenarioMsg (fun _ => 0)).2 zeroMsg).2.Data i =
        scenarioMsg.Data i :=
  ⟨⟨by decide, by decide, by decide, by decide⟩,
    decodeSLCAN_encodeSLCAN_roundtrip scenarioMsg (fun _ => 0) zeroMsg (by decide) (by decide)
      (by decide) (by decide)⟩

/-- C3 (the code at the failing input): for the frame with `DLC = 9`, `encodeSLCAN` reports no
error: it returns the length 29, the length character it stores is the NUL read at index 9
of `dlc_set`, it converts `Data[8]` into the offsets 26 and 27, and it stores CR at offset 28,
behind the 27 characters of the struct. -/
theorem encodeSLCAN_dlc_nine_not_rejected :
    (encodeSLCAN oversizeMsg (fun _ => 0)).1 = 29 ∧
      (encodeSLCAN oversizeMsg (fun _ => 0)).2 len_off = 0 ∧
      readChars (encodeSLCAN oversizeMsg (fun _ => 0)).2 (data_off + 16) 3 = ascii "00\r" := by
  decide

/-- C5: with a valid type and 8 hex id characters, a length character that decodes to more
than 8 (`9`, `A`..`F`, `a`..`f`) makes `decodeSLCAN` return `false`, and the data field is
not read: a second wire frame that agrees on the type, id and length fields gives the same
result and the same output frame. -/
theorem decodeSLCAN_too_high_length (w w2 : SLCANMsg) (c : CANMsg)
    (htype : w type_off = 'R'.toNat ∨ w type_off = 'T'.toNat)
    (hid : ∀ i, i < 8 → isHexDigit (w (id_off + i)))
    (hlen : w len_off = '9'.toNat ∨ ('A'.toNat ≤ w len_off ∧ w len_off ≤ 'F'.toNat) ∨
      ('a'.toNat ≤ w len_off ∧ w len_off ≤ 'f'.toNat))
    (hsame : ∀ j, j < data_off → w2 j = w j) :
    (decodeSLCAN w c).1 = false ∧ decodeSLCAN w2 c = decodeSLCAN w c := by
  have htype2 : w type_off = 82 ∨ w type_off = 84 := htype
  have hlen2 : w len_off = 57 ∨ (65 ≤ w len_off ∧ w len_off ≤ 70) ∨
      (97 ≤ w len_off ∧ w len_off ≤ 102) := hlen
  have h1 : (fromHex 32 w id_off 8).1 = true := (fromHex_true_iff 32 w id_off 8).mpr hid
  have hd : isHexDigit (w len_off) := by
    unfold isHexDigit
    omega
  have hv : hexDigitValue (w len_off) > 8 := by
    unfold hexDigitValue
    split_ifs <;> omega
  have h2 : fromHex 8 w len_off 1 = (true, hexDigitValue (w len_off)) := by
    rw [fromHex_one_char, if_pos hd, decide_eq_true hd]
  have main : ∀ u : SLCANMsg, u type_off = w type_off →
      fromHex 32 u id_off 8 = fromHex 32 w id_off 8 →
      fromHex 8 u len_off 1 = fromHex 8 w len_off 1 →
      decodeSLCAN u c =
        (false, { IDE := 0x4, RTR := if w type_off = 82 then 0x2 else 0x0,
                  ExtId := (fromHex 32 w id_off 8).2, DLC := hexDigitValue (w len_off),
                  Data := c.Data }) := by
    intro u e0 e1 e2
    unfold decodeSLCAN
    rw [e0, e1, e2, h2, if_neg (by omega)]
    simp only [h1, Bool.not_true, Bool.false_eq_true, if_false]
    rw [if_pos hv]
  have e0 : w2 type_off = w type_off := hsame _ (by decide)
  have e1 : fromHex 32 w2 id_off 8 = fromHex 32 w id_off 8 :=
    fromHexLoop_congr 32 w2 w 8 id_off 0 (fun i hi => hsame _ (by rw [id_off, data_off]; omega))
  have e2 : fromHex 8 w2 len_off 1 = fromHex 8 w len_off 1 :=
    fromHexLoop_congr 8 w2 w 1 len_off 0 (fun i hi => hsame _ (by rw [len_off, data_off]; omega))
  rw [main w2 e0 e1 e2, main w rfl rfl rfl]
  exact ⟨rfl, rfl⟩

/-- Witness for C5: two wire frames with the length character `9` and different data
fields. -/
theorem decodeSLCAN_too_high_length_witness :
    ((longWire type_off = 'R'.toNat ∨ longWire type_off = 'T'.toNat) ∧
        (∀ i, i < 8 → isHexDigit (longWire (id_off + i))) ∧
        (longWire len_off = '9'.toNat ∨
          ('A'.toNat ≤ longWire len_off ∧ longWire len_off ≤ 'F'.toNat) ∨
          ('a'.toNat ≤ longWire len_off ∧ longWire len_off ≤ 'f'.toNat)) ∧
        (∀ j, j < data_off → longWire2 j = longWire j) ∧ longWire2 data_off ≠ longWire data_off) ∧
      (decodeSLCAN longWire zeroMsg).1 = false ∧
      decodeSLCAN longWire2 zeroMsg = decodeSLCAN longWire zeroMsg :=
  ⟨⟨by decide, by decide, by decide, by decide, by decide⟩,
    decodeSLCAN_too_high_length longWire longWire2 zeroMsg (by decide) (by decide) (by decide)
      (by decide)⟩

/-- C11 (the code at the failing input): on the full queue of capacity 2, `queue` stores
the message in slot 2, behind the last valid slot, and advances the cursor to 3 before it
throws; the following `sendAllQueued` hands 3 datagrams to the transport. -/
theorem queue_on_full_queue_writes_past_end :
    fullGateway.write_frames_index_ = 2 ∧
      (fullGateway.queue 2 scenarioQ).1 = Except.error overflowError ∧
      (fullGateway.write_frames_ 2).id = 0 ∧
      ((fullGateway.queue 2 scenarioQ).2.write_frames_ 2).id = 0x1ABCDEF0 ∧
      (fullGateway.queue 2 scenarioQ).2.write_frames_index_ = 3 ∧
      ((fullGateway.queue 2 scenarioQ).2.sendAllQueued sendOk).2.2.length = 3 :=
  ⟨by decide, rfl, by decide, by decide, by decide, by decide⟩

/-- C12: for every state of the gateway and every behaviour of the transport,
`sendAllQueued` returns with the write cursor 0. -/
theorem sendAllQueued_resets_cursor (g : SLCANGateway) (send_to : Nat → SLCanMsg → Bool) :
    (g.sendAllQueued send_to).2.1.write_frames_index_ = 0 := by
  simp only [SLCANGateway.sendAllQueued]

/-- C13 (the code at the failing input): for the queue holding `scenarioQ` and `otherQ`,
`sendAllQueued` hands two datagrams to the transport, and the first 17 characters of each are
NUL, `encodedMsg` having an empty body; the wire encoding of the scenario frame is
`T1ABCDEF03010203` and CR. -/
theorem sendAllQueued_sends_zeroed_datagrams :
    (fullGateway.write_frames_ 0).id = 0x1ABCDEF0 ∧ (fullGateway.write_frames_ 0).len = 3 ∧
      (fullGateway.sendAllQueued sendOk).2.2.map (fun e => readChars e.1 0 17) =
        [List.replicate 17 0, List.replicate 17 0] ∧
      readChars (encodeSLCAN scenarioMsg (fun _ => 0)).2 0 17 = ascii "T1ABCDEF03010203\r" := by
  decide

/-- C14 (the code at the failing input): on a transport where both sends set the error
code, `sendAllQueued` returns `true`, the value it returns when both sends succeed. -/
theorem sendAllQueued_hides_send_errors :
    (fullGateway.sendAllQueued sendFailing).2.2.map Prod.snd = [true, true] ∧
      (fullGateway.sendAllQueued sendFailing).1 = true ∧
      (fullGateway.sendAllQueued sendOk).2.2.map Prod.snd = [false, false] ∧
      (fullGateway.sendAllQueued sendOk).1 = true := by
  decide

/-- C15 (the code at the failing input): the read delivers the 27 characters of the
well-formed wire frame `T1ABCDEF03010203`, which `decodeSLCAN` accepts with the identifier
`0x1ABCDEF0`; `recv` returns `false` and the caller's message keeps its identifier 0. -/
theorem recv_returns_false_on_valid_datagram :
    (decodeSLCAN scenarioWire zeroMsg).1 = true ∧
      (decodeSLCAN scenarioWire zeroMsg).2.ExtId = 0x1ABCDEF0 ∧
      (emptyGateway.recv zeroQ 27 scenarioWire).1 = false ∧
      (emptyGateway.recv zeroQ 27 scenarioWire).2.id = 0 ∧
      (emptyGateway.recv zeroQ 27 scenarioWire).2 = zeroQ :=
  ⟨by decide, by decide, by decide, by decide, rfl⟩

/-- C18: on a queue holding `k < N` frames, `queue` of a message with `len <= 8` returns
normally, stores the id, the length and the first `len` data bytes of the message in slot `k`,
advances the cursor from `k` to `k + 1` and leaves every other slot, the slots `0..k-1` among
them, unchanged.  (The bound on `len` keeps `memmove` inside the 8 bytes of `data`.) -/
theorem queue_appends_at_cursor (N k : Nat) (g : SLCANGateway) (msg : Message)
    (hk : g.write_frames_index_ = k) (hroom : k < N) (_hlen : msg.len ≤ 8) :
    (g.queue N msg).1 = Except.ok () ∧
      ((g.queue N msg).2.write_frames_ k).id = msg.id ∧
      ((g.queue N msg).2.write_frames_ k).len = msg.len ∧
      (∀ i, i < msg.len → ((g.queue N msg).2.write_frames_ k).data i = msg.data i) ∧
      (g.queue N msg).2.write_frames_index_ = k + 1 ∧
      (∀ j, j < k → (g.queue N msg).2.write_frames_ j = g.write_frames_ j) ∧
      (∀ j, j ≠ k → (g.queue N msg).2.write_frames_ j = g.write_frames_ j) := by
  have hnot : ¬ (g.write_frames_index_ + 1 > N) := by omega
  simp only [SLCANGateway.queue]
  rw [if_neg hnot, hk]
  refine ⟨rfl, ?_, ?_, ?_, rfl, ?_, ?_⟩
  · simp only [Function.update_same]
  · simp only [Function.update_same]
  · intro i hi
    simp only [Function.update_same, memmove, if_pos hi]
  · intro j hj
    exact Function.update_noteq (by omega) _ _
  · intro j hj
    exact Function.update_noteq hj _ _

/-- Witness for C18: a second message queued behind one stored frame, capacity 2. -/
theorem queue_appends_at_cursor_witness :
    ((emptyGateway.queue 2 scenarioQ).2.write_frames_index_ = 1 ∧ 1 < 2 ∧ otherQ.len ≤ 8) ∧
      ((emptyGateway.queue 2 scenarioQ).2.queue 2 otherQ).1 = Except.ok () ∧
      (((emptyGateway.queue 2 scenarioQ).2.queue 2 otherQ).2.write_frames_ 1).id = otherQ.id ∧
      ((emptyGateway.queue 2 scenarioQ).2.queue 2 otherQ).2.write_frames_index_ = 1 + 1 ∧
      ((emptyGateway.queue 2 scenarioQ).2.queue 2 otherQ).2.write_frames_ 0 =
        (emptyGateway.queue 2 scenarioQ).2.write_frames_ 0 :=
  ⟨⟨by decide, by decide, by decide⟩,
    (queue_appends_at_cursor 2 1 (emptyGateway.queue 2 scenarioQ).2 otherQ (by decide)
      (by decide) (by decide)).1,
    (queue_appends_at_cursor 2 1 (emptyGateway.queue 2 scenarioQ).2 otherQ (by decide)
      (by decide) (by decide)).2.1,
    (queue_appends_at_cursor 2 1 (emptyGateway.queue 2 scenarioQ).2 otherQ (by decide)
      (by decide) (by decide)).2.2.2.2.1,
    (queue_appends_at_cursor 2 1 (emptyGateway.queue 2 scenarioQ).2 otherQ (by decide)
      (by decide) (by decide)).2.2.2.2.2.1 0 (by decide)⟩

/-! ## Lemmas on accepted wire frames -/

theorem fromHex_eq_hexValue (size : Nat) (mem : Nat → Nat) (pos n : Nat) (hn : n ≤ 2 * size)
    (h : (fromHex (8 * size) mem pos (n : Int)).1 = true) :
    fromHex (8 * size) mem pos (n : Int) = (true, hexValue mem pos n) := by
  have hhex := (fromHex_true_iff _ mem pos n).mp h
  have e2 : (2 : Nat) ^ (8 * size) = 16 ^ (2 * size) := by
    rw [show (16 : Nat) = 2 ^ 4 by norm_num, ← pow_mul]; congr 1; omega
  have hlt : hexValue mem pos n < 2 ^ (8 * size) := by
    rw [e2]
    exact lt_of_lt_of_le (hexValue_lt mem pos n) (Nat.pow_le_pow_right (by norm_num) hn)
  unfold fromHex
  rw [Int.toNat_ofNat, fromHexLoop_value _ _ _ _ _ (Nat.pow_pos (by omega)) hhex,
    Nat.zero_mul, Nat.zero_add, Nat.mod_eq_of_lt hlt]

theorem hexValue_digit (mem : Nat → Nat) (pos n i : Nat) (hi : i < n) :
    (hexValue mem pos n / 16 ^ (n - 1 - i)) % 16 = hexDigitValue (mem (pos + i)) := by
  induction n generalizing pos i with
  | zero => omega
  | succ n ih =>
    rw [hexValue_succ]
    have hr := hexValue_lt mem (pos + 1) n
    have hd := hexDigitValue_lt (mem pos)
    have hpos : 0 < 16 ^ n := Nat.pow_pos (by norm_num)
    cases i with
    | zero =>
      have e : n + 1 - 1 - 0 = n := by omega
      have e0 : pos + 0 = pos := rfl
      rw [e, e0, Nat.add_comm, Nat.add_mul_div_right _ _ hpos,
        Nat.div_eq_of_lt hr, Nat.zero_add, Nat.mod_eq_of_lt hd]
    | succ k =>
      have hk : k < n := by omega
      have e : n + 1 - 1 - (k + 1) = n - 1 - k := by omega
      have esplit : (16 : Nat) ^ n = 16 ^ (k + 1) * 16 ^ (n - 1 - k) := by
        rw [← pow_add]; congr 1; omega
      have hpos2 : 0 < 16 ^ (n - 1 - k) := Nat.pow_pos (by norm_num)
      have e3 : pos + (k + 1) = pos + 1 + k := by omega
      rw [e, esplit, ← Nat.mul_assoc, Nat.add_comm, Nat.add_mul_div_right _ _ hpos2,
        pow_succ, ← Nat.mul_assoc, Nat.add_mul_mod_self_right, ih (pos + 1) k hk, e3]

theorem nibbleChar_eq (w v i : Nat) :
    nibbleChar w v i = hex_set.getD ((v / 16 ^ (w - 1 - i)) % 16) 0 := by
  have e : (v >>> (4 * (w - 1 - i))) &&& 0xf = (v / 16 ^ (w - 1 - i)) % 16 := by
    have : (0xf : Nat) = 2 ^ 4 - 1 := by norm_num
    rw [this, Nat.and_pow_two_sub_one_eq_mod, Nat.shiftRight_eq_div_pow, pow_mul]
    norm_num
  unfold nibbleChar
  change hex_set.getD ((v >>> (4 * (w - 1 - i))) &&& 0xf) 0 = _
  rw [e]

theorem hex_set_hexDigitValue (c : Nat) (h : isHexDigit c) :
    hex_set.getD (hexDigitValue c) 0 = toUpperHex c := by
  have hc : c < 103 := by
    unfold isHexDigit at h
    omega
  revert h
  revert c
  decide

theorem nibbleChar_hexValue (mem : Nat → Nat) (pos n i : Nat) (hi : i < n)
    (h : isHexDigit (mem (pos + i))) :
    nibbleChar n (hexValue mem pos n) i = toUpperHex (mem (pos + i)) := by
  rw [nibbleChar_eq, hexValue_digit mem pos n i hi, hex_set_hexDigitValue _ h]

theorem decodeDataLoop_true_iff (w : SLCANMsg) (n i : Nat) (c : CANMsg) :
    (decodeDataLoop w n i c).1 = true ↔
      ∀ k, i ≤ k → k < i + n → (fromHex 8 w (data_off + k * 2) 2).1 = true := by
  constructor
  · intro h k hk1 hk2
    induction n generalizing i c with
    | zero => omega
    | succ n ih =>
      simp only [decodeDataLoop] at h
      by_cases hr : (fromHex 8 w (data_off + i * 2) 2).1 = true
      · rw [hr] at h
        simp only [Bool.not_true, Bool.false_eq_true, if_false] at h
        by_cases hki : k = i
        · rw [hki]; exact hr
        · exact ih _ _ h (by omega) (by omega)
      · have hr2 : (fromHex 8 w (data_off + i * 2) 2).1 = false := by simpa using hr
        rw [hr2] at h
        simp at h
  · intro h
    rw [decodeDataLoop_ok w (fun k => (fromHex 8 w (data_off + k * 2) 2).2) n i c]
    intro k hk1 hk2
    exact Prod.ext (h k hk1 hk2) rfl

theorem data_chars_iff (w : SLCANMsg) (dlc : Nat) :
    (∀ k, 0 ≤ k → k < 0 + dlc → (fromHex 8 w (data_off + k * 2) 2).1 = true) ↔
      ∀ i, i < 2 * dlc → isHexDigit (w (data_off + i)) := by
  constructor
  · intro h i hi
    have hk := (fromHex_true_iff 8 w (data_off + (i / 2) * 2) 2).mp
      (h (i / 2) (Nat.zero_le _) (by omega)) (i % 2) (Nat.mod_lt _ (by norm_num))
    have e : data_off + i / 2 * 2 + i % 2 = data_off + i := by omega
    rw [e] at hk
    exact hk
  · intro h k _ hk
    apply (fromHex_true_iff 8 w (data_off + k * 2) 2).mpr
    intro j hj
    have e : data_off + k * 2 + j = data_off + (k * 2 + j) := by omega
    rw [e]
    exact h _ (by omega)

theorem decodeSLCAN_accepts_iff (w : SLCANMsg) (c : CANMsg) :
    (decodeSLCAN w c).1 = true ↔
      (w type_off = 82 ∨ w type_off = 84) ∧ (∀ i, i < 8 → isHexDigit (w (id_off + i))) ∧
        (48 ≤ w len_off ∧ w len_off ≤ 56) ∧
        ∀ i, i < 2 * (w len_off - 48) → isHexDigit (w (data_off + i)) := by
  rw [decodeSLCAN_eq]
  by_cases ht : w type_off ≠ 82 ∧ w type_off ≠ 84
  · rw [if_pos ht]
    constructor
    · intro h
      exact Bool.noConfusion h
    · rintro ⟨h, _⟩
      omega
  · rw [if_neg ht]
    have ht2 : w type_off = 82 ∨ w type_off = 84 := by omega
    by_cases h1 : (fromHex 32 w id_off 8).1 = false
    · rw [if_pos h1]
      constructor
      · intro h
        exact Bool.noConfusion h
      · rintro ⟨_, hid, _⟩
        have hidt : (fromHex 32 w id_off 8).1 = true := (fromHex_true_iff 32 w id_off 8).mpr hid
        rw [h1] at hidt
        exact Bool.noConfusion hidt
    · rw [if_neg h1]
      have hidok : ∀ i, i < 8 → isHexDigit (w (id_off + i)) :=
        (fromHex_true_iff 32 w id_off 8).mp (by simpa using h1)
      by_cases hd : ¬ isHexDigit (w len_off)
      · rw [if_pos hd]
        constructor
        · intro h
          exact Bool.noConfusion h
        · rintro ⟨_, _, hl, _⟩
          exact absurd (Or.inl ⟨hl.1, by omega⟩) hd
      · rw [if_neg hd]
        have hd2 : isHexDigit (w len_off) := by simpa using hd
        by_cases hv : hexDigitValue (w len_off) > 8
        · rw [if_pos hv]
          constructor
          · intro h
            exact Bool.noConfusion h
          · rintro ⟨_, _, hl, _⟩
            unfold hexDigitValue at hv
            rw [if_pos (by omega)] at hv
            omega
        · rw [if_neg hv]
          have hrange : 48 ≤ w len_off ∧ w len_off ≤ 56 ∧
              hexDigitValue (w len_off) = w len_off - 48 := by
            unfold isHexDigit at hd2
            unfold hexDigitValue at hv ⊢
            split_ifs at hv ⊢ <;> omega
          rw [decodeDataLoop_true_iff, hrange.2.2, data_chars_iff]
          constructor
          · intro h
            exact ⟨ht2, hidok, ⟨hrange.1, hrange.2.1⟩, h⟩
          · rintro ⟨_, _, _, h⟩
            exact h

theorem decodeSLCAN_accepted_frame (w : SLCANMsg) (c : CANMsg)
    (h : (decodeSLCAN w c).1 = true) :
    decodeSLCAN w c =
      (true, { IDE := 0x4, RTR := if w type_off = 82 then 0x2 else 0x0,
               ExtId := hexValue w id_off 8, DLC := w len_off - 48,
               Data := fun j => if j < w len_off - 48 then hexValue w (data_off + j * 2) 2
                 else c.Data j }) := by
  obtain ⟨ht, hid, hl, hdat⟩ := (decodeSLCAN_accepts_iff w c).mp h
  have fid : fromHex 32 w id_off 8 = (true, hexValue w id_off 8) :=
    fromHex_eq_hexValue 4 w id_off 8 (by norm_num) ((fromHex_true_iff 32 w id_off 8).mpr hid)
  have flen : fromHex 8 w len_off 1 = (true, w len_off - 48) :=
    fromHex_one_digit w len_off _ (by omega) (by omega)
  have fdata : ∀ k, k < w len_off - 48 →
      fromHex 8 w (data_off + k * 2) 2 = (true, hexValue w (data_off + k * 2) 2) := by
    intro k hk
    exact fromHex_eq_hexValue 1 w (data_off + k * 2) 2 (by norm_num)
      ((data_chars_iff w (w len_off - 48)).mpr hdat k (Nat.zero_le _) (by omega))
  exact decodeSLCAN_ok w c _ _ (fun k => hexValue w (data_off + k * 2) 2) ht fid flen
    (by omega) fdata

/-! ## Claims on accepted wire frames -/

/-- C17 (counterexample): the wire frame `TFFFFFFFF0` is accepted and the decoded identifier
`0xFFFFFFFF` is not below `2 ^ 29`. -/
theorem decodeSLCAN_accepts_wide_id :
    (decodeSLCAN wideIdWire zeroMsg).1 = true ∧
      (decodeSLCAN wideIdWire zeroMsg).2.ExtId = 0xFFFFFFFF ∧
      ¬ (decodeSLCAN wideIdWire zeroMsg).2.ExtId < 2 ^ 29 := by
  decide

/-- C17 (amended): every CAN frame produced by a successful `decodeSLCAN` has `DLC <= 8` and
an identifier within the 32 bits of the 8 hex characters, `ExtId < 2 ^ 32`. -/
theorem decodeSLCAN_output_bounds (w : SLCANMsg) (c : CANMsg)
    (h : (decodeSLCAN w c).1 = true) :
    (decodeSLCAN w c).2.DLC ≤ 8 ∧ (decodeSLCAN w c).2.ExtId < 2 ^ 32 := by
  obtain ⟨_, _, hl, _⟩ := (decodeSLCAN_accepts_iff w c).mp h
  rw [decodeSLCAN_accepted_frame w c h]
  constructor
  · show w len_off - 48 ≤ 8
    omega
  · show hexValue w id_off 8 < 2 ^ 32
    exact lt_of_lt_of_le (hexValue_lt w id_off 8) (by norm_num)

/-- Witness for C17 (amended): the wire frame with the identifier `0xFFFFFFFF`. -/
theorem decodeSLCAN_output_bounds_witness :
    (decodeSLCAN wideIdWire zeroMsg).1 = true ∧
      (decodeSLCAN wideIdWire zeroMsg).2.DLC ≤ 8 ∧
      (decodeSLCAN wideIdWire zeroMsg).2.ExtId < 2 ^ 32 :=
  ⟨by decide, decodeSLCAN_output_bounds wideIdWire zeroMsg (by decide)⟩

/-- C19: `decodeSLCAN` returns `true` if and only if the type character is `T` or `R`, the 8
id characters are hex digits, the length character is one of `0`..`8` and the first
`2 * DLC` characters of the data field are hex digits; so a wire frame that agrees with an
accepted one up to the end of its payload is accepted as well, whatever stands in place of
the CR and behind it. -/
theorem decodeSLCAN_true_iff_well_formed (w : SLCANMsg) (c : CANMsg) :
    ((decodeSLCAN w c).1 = true ↔
        (w type_off = 'T'.toNat ∨ w type_off = 'R'.toNat) ∧
          (∀ i, i < 8 → isHexDigit (w (id_off + i))) ∧
          ('0'.toNat ≤ w len_off ∧ w len_off ≤ '8'.toNat) ∧
          ∀ i, i < 2 * (w len_off - '0'.toNat) → isHexDigit (w (data_off + i))) ∧
      ∀ (w2 : SLCANMsg) (c2 : CANMsg),
        (∀ j, j < data_off + 2 * (w len_off - '0'.toNat) → w2 j = w j) →
          (decodeSLCAN w2 c2).1 = (decodeSLCAN w c).1 := by
  constructor
  · rw [decodeSLCAN_accepts_iff]
    change _ ↔ (w type_off = 84 ∨ w type_off = 82) ∧ _
    rw [or_comm]
    rfl
  · intro w2 c2 hsame
    change ∀ j, j < data_off + 2 * (w len_off - 48) → w2 j = w j at hsame
    have e0 : w2 type_off = w type_off := hsame _ (by rw [type_off, data_off]; omega)
    have e9 : w2 len_off = w len_off := hsame _ (by rw [len_off, data_off]; omega)
    have hiff : (decodeSLCAN w2 c2).1 = true ↔ (decodeSLCAN w c).1 = true := by
      rw [decodeSLCAN_accepts_iff, decodeSLCAN_accepts_iff, e0, e9]
      constructor
      · rintro ⟨h1, h2, h3, h4⟩
        refine ⟨h1, ?_, h3, ?_⟩
        · intro i hi
          rw [← hsame _ (by rw [id_off, data_off]; omega)]
          exact h2 i hi
        · intro i hi
          rw [← hsame _ (by omega)]
          exact h4 i hi
      · rintro ⟨h1, h2, h3, h4⟩
        refine ⟨h1, ?_, h3, ?_⟩
        · intro i hi
          rw [hsame _ (by rw [id_off, data_off]; omega)]
          exact h2 i hi
        · intro i hi
          rw [hsame _ (by omega)]
          exact h4 i hi
    cases h1 : (decodeSLCAN w c).1 with
    | true => exact hiff.mpr h1
    | false =>
      cases h2 : (decodeSLCAN w2 c2).1 with
      | false => rfl
      | true =>
        have := hiff.mp h2
        rw [h1] at this
        exact Bool.noConfusion this

/-- C20: for an accepted wire frame `w`, `encodeSLCAN` of the decoded frame returns
`11 + 2 * DLC` and writes, at each of the first `10 + 2 * DLC` offsets, the character of `w`
with `a`..`f` replaced by `A`..`F`, and CR behind them; so when `w` has no lowercase hex
digit there, the written characters are those of `w`. -/
theorem encodeSLCAN_decodeSLCAN_uppercase (w : SLCANMsg) (c : CANMsg) (buf : SLCANMsg)
    (h : (decodeSLCAN w c).1 = true) :
    (encodeSLCAN (decodeSLCAN w c).2 buf).1 = 11 + 2 * (decodeSLCAN w c).2.DLC ∧
      (∀ j, j < 10 + 2 * (decodeSLCAN w c).2.DLC →
        (encodeSLCAN (decodeSLCAN w c).2 buf).2 j = toUpperHex (w j)) ∧
      (encodeSLCAN (decodeSLCAN w c).2 buf).2 (10 + 2 * (decodeSLCAN w c).2.DLC) = 13 ∧
      ((∀ j, j < 10 + 2 * (decodeSLCAN w c).2.DLC → ¬ ('a'.toNat ≤ w j ∧ w j ≤ 'f'.toNat)) →
        ∀ j, j < 10 + 2 * (decodeSLCAN w c).2.DLC →
          (encodeSLCAN (decodeSLCAN w c).2 buf).2 j = w j) := by
  obtain ⟨ht, hid, hl, hdat⟩ := (decodeSLCAN_accepts_iff w c).mp h
  rw [type_off] at ht
  rw [len_off] at hl hdat
  have hchars : ∀ j, j < 10 + 2 * (decodeSLCAN w c).2.DLC →
      (encodeSLCAN (decodeSLCAN w c).2 buf).2 j = toUpperHex (w j) := by
    rw [decodeSLCAN_accepted_frame w c h]
    intro j hj
    rw [encodeSLCAN_apply]
    dsimp only [type_off, id_off, len_off, data_off] at hj hid hdat ⊢
    rw [if_neg (by omega)]
    by_cases h1 : 10 ≤ j ∧ j < 10 + 2 * (w 9 - 48)
    · have hk : (j - 10) / 2 < w 9 - 48 := by omega
      have hhex : isHexDigit (w (10 + (j - 10) / 2 * 2 + (j - 10) % 2)) := by
        have e : 10 + (j - 10) / 2 * 2 + (j - 10) % 2 = 10 + (j - 10) := by omega
        rw [e]
        exact hdat _ (by omega)
      have e2 : 10 + (j - 10) / 2 * 2 + (j - 10) % 2 = j := by omega
      rw [if_pos h1, if_pos hk,
        nibbleChar_hexValue w (10 + (j - 10) / 2 * 2) 2 ((j - 10) % 2)
          (Nat.mod_lt _ (by norm_num)) hhex, e2]
    · rw [if_neg h1]
      by_cases h2 : 1 ≤ j ∧ j < 9
      · have e : 1 + (j - 1) = j := by omega
        rw [if_pos h2, nibbleChar_hexValue w 1 8 (j - 1) (by omega) (hid _ (by omega)), e]
      · rw [if_neg h2]
        by_cases h3 : j = 0
        · subst h3
          rw [if_pos rfl]
          rcases ht with ht | ht <;> rw [ht] <;> decide
        · have h4 : j = 9 := by omega
          subst h4
          have hu : toUpperHex (w 9) = w 9 := by
            unfold toUpperHex
            rw [if_neg (by omega)]
          rw [if_neg h3, if_pos rfl, dlc_set_getD _ (by omega), hu]
          omega
  refine ⟨?_, hchars, ?_, ?_⟩
  · simp only [encodeSLCAN]
    omega
  · rw [encodeSLCAN_apply, if_pos rfl]
  · intro hup j hj
    have hno : ¬ (97 ≤ w j ∧ w j ≤ 102) := hup j hj
    rw [hchars j hj]
    unfold toUpperHex
    rw [if_neg hno]

/-- Witness for C20: the accepted wire frame `R1abcdef02a1fe`, in lowercase hex, is written
back as `R1ABCDEF02A1FE` and CR. -/
theorem encodeSLCAN_decodeSLCAN_uppercase_witness :
    (decodeSLCAN lowerWire zeroMsg).1 = true ∧
      (encodeSLCAN (decodeSLCAN lowerWire zeroMsg).2 (fun _ => 0)).1 = 15 ∧
      readChars (encodeSLCAN (decodeSLCAN lowerWire zeroMsg).2 (fun _ => 0)).2 0 15 =
        ascii "R1ABCDEF02A1FE\r" ∧
      (encodeSLCAN (decodeSLCAN lowerWire zeroMsg).2 (fun _ => 0)).2 3 = toUpperHex (lowerWire 3) :=
  ⟨by decide, by decide, by decide,
    (encodeSLCAN_decodeSLCAN_uppercase lowerWire zeroMsg (fun _ => 0) (by decide)).2.1 3
      (by decide)⟩

end SLCAN
